import Mathlib

/-!
Verification development for the nukedown multi-source manga resolution
pipeline (`manga_connectors.py`, `manga_downloader_enhanced.py`).

The Python source is shallowly embedded: pure computations become Lean
functions; each network call is factored out as an explicit parameter
(the probe oracle of the page-count resolver, the parsed API payloads of
the connectors), so that each connector operation is the pure function of
its inputs that the Python code computes.
-/

namespace Nukedown

/-! ## Page-count resolver (`mangaFoxConnector._find_page_count_with_binary_search`)

The only side effect of the resolver is the HEAD existence probe
`self.session.head(url).status_code == 200` for a page number; it is
abstracted as `probe : Nat → Bool`.  Timeouts / request exceptions are
treated by the source as "page does not exist", which the oracle also
covers (a probe that would raise is a probe returning `false`).
-/

/-- The exponential phase (`manga_connectors.py:455-469`):
`while high <= 1000: if probe(high): low, high = high, high*2 else break`.
`fuel` bounds the number of loop-condition checks; starting from
`high = 500` the loop body runs at most twice before `high = 2000 > 1000`,
so any `fuel ≥ 3` computes the exact Python loop result. -/
def doublingPhase (probe : Nat → Bool) : Nat → Nat → Nat → Nat × Nat
  | 0, low, high => (low, high)
  | fuel + 1, low, high =>
    if high ≤ 1000 then
      if probe high then doublingPhase probe fuel high (high * 2)
      else (low, high)
    else (low, high)

/-- The binary-search phase (`manga_connectors.py:472-485`):
`while low <= high` with `mid = (low+high)//2`; on a successful probe
`last, low = mid, mid+1`, otherwise `high = mid-1`.  `fuel` bounds the
iteration count; each iteration strictly shrinks `high + 1 - low`, so
`fuel = high + 2 - low` at the call site never runs out.  The resolver is
only ever run with `low ≥ 1`, where `mid ≥ 1` and the natural subtraction
`mid - 1` agrees with Python's integers. -/
def bsearchPhase (probe : Nat → Bool) : Nat → Nat → Nat → Nat → Nat
  | 0, _, _, last => last
  | fuel + 1, low, high, last =>
    if low ≤ high then
      let mid := (low + high) / 2
      if probe mid then bsearchPhase probe fuel (mid + 1) high mid
      else bsearchPhase probe fuel low (mid - 1) last
    else last

/-- `mangaFoxConnector._find_page_count_with_binary_search`
(`manga_connectors.py:442-496`): doubling phase from `low = 1`,
`high = 500`, then integer binary search; returns the last page whose
probe succeeded, or `0` when none did. -/
def find_page_count_with_binary_search (probe : Nat → Bool) : Nat :=
  let lh := doublingPhase probe 3 1 500
  let last_working_page := bsearchPhase probe (lh.2 + 2 - lh.1) lh.1 lh.2 0
  if last_working_page > 0 then last_working_page else 0

/-- The CDN existence oracle of the claim: the HEAD request for page `n`
succeeds exactly when `n ≤ K`. -/
def cdnOracle (K : Nat) : Nat → Bool := fun n => n ≤ K

/-! ## Page-count guard rails (`mangaFoxConnector.get_pages`)

`get_pages` first tries to read a page count out of the chapter HTML
(`_extract_page_count_from_html`, which can in principle return any
integer, e.g. from `int(...)` on a page attribute), and only when that
yields exactly `0` runs the binary search.  Both outcomes are network
results and enter the model as the integer parameters `html_count` and
`bsearch_count`. -/

/-- Lines 317-346 of `manga_connectors.py`: the page count `get_pages`
settles on before generating URLs.  `html_count` is the result of
`_extract_page_count_from_html`, `bsearch_count` the result of
`_find_page_count_with_binary_search` (consulted only when the former is
exactly `0`); then `<= 0` falls back to `50` and `> 500` is capped. -/
def get_pages_total (html_count bsearch_count : Int) : Int :=
  let total₀ := html_count
  let total₁ := if total₀ = 0 then bsearch_count else total₀
  if total₁ ≤ 0 then 50
  else if 500 < total₁ then 500
  else total₁

/-- Lines 355-363 of `manga_connectors.py`: the page-URL list generated
for the chosen CDN domain, one URL per page in `range(1, total+1)`. -/
def get_pages_urls (cdn manga_name chapter_num : String) (total : Int) : List String :=
  (List.range total.toNat).map
    (fun i => cdn ++ "/" ++ manga_name ++ "/" ++ chapter_num ++ "/" ++ toString (i + 1) ++ ".jpg")

/-! ## API image selection policy (`mangaDownloader._download_chapter_with_connector`) -/

/-- Lines 575-585 of `manga_downloader_enhanced.py`: which of the URLs
extracted from one packed-script API response are kept, as a function of
the loop index `i` and the extracted list.  `img_urls[:2]` on the first
call when two are available, `[img_urls[1]]` on subsequent calls with two
available, otherwise whatever was extracted. -/
def select_api_urls (i : Nat) (img_urls : List String) : List String :=
  if i = 0 ∧ 2 ≤ img_urls.length then img_urls.take 2
  else if 2 ≤ img_urls.length then [img_urls.getD 1 ""]
  else img_urls

/-! ## Chapter-fetch fallback (`mangaDownloader._fetch_chapters`) -/

/-- One chapter record of the downloader's chapter-dict format; `id` and
`manga_id` are optional because the parsing strategies build dicts
without them (`manga_downloader_enhanced.py:439-443`) while the final
synthetic entry carries them. -/
structure DChapter where
  number : String
  title : String
  url : String
  id : Option String
  manga_id : Option String
deriving Repr, DecidableEq

/-- Lines 448-461 of `manga_downloader_enhanced.py`, the tail of the
HTML-parsing fallback path of `_fetch_chapters`.  `parsed` is the chapter
list collected by the BeautifulSoup and regex strategies; line 451 adds
the last-resort synthetic entry when it is empty, and lines 454-460
rebind `chapters` to a fresh single-entry list regardless, just before
the return. -/
def fetch_chapters_fallback (parsed : List DChapter) (url : String) : List DChapter :=
  let _chapters₀ := if parsed.isEmpty
    then [{ number := "1", title := "Chapter 1", url := url, id := none, manga_id := none }]
    else parsed
  let chapters₁ : List DChapter := [⟨"1", "Chapter 1", url, some "1", some "1"⟩]
  chapters₁

/-! ## Script unpacker (`mangaDownloader._unpack_fanfox_javascript`)

The Python routine is pure string processing; its regular-expression
calls are embedded as deterministic scanners.  Each pattern used by the
source (`\}\('([^']+)',(\d+),(\d+),'([^']*)'`, the `\b…\b` whole-word
substitution, the `pix`/`pvalue` extraction patterns and the image-path
`findall`) is deterministic at any given start position, so `re.search`
is "first position, scanning left to right, where the shape parses" and
`re.sub`/`re.findall` are single left-to-right passes.  Character
classes (`\w`, `\d`, `\s`) are modelled over ASCII, which covers the
packer payloads the routine consumes. -/

/-- The single-quote character `'` (code 39). -/
def quoteChar : Char := Char.ofNat 39

/-- The double-quote character (code 34). -/
def dquoteChar : Char := Char.ofNat 34

/-- Either quote, the `["\']` class of the source's patterns. -/
def isQuoteChar (c : Char) : Bool := c = dquoteChar || c = quoteChar

/-- ASCII `\w`: letters, digits, underscore. -/
def isWordChar (c : Char) : Bool := c.isAlphanum || c = Char.ofNat 95

/-- ASCII `\s`: space, `\t`, `\n`, `\r`, vertical tab, form feed. -/
def isSpaceChar (c : Char) : Bool :=
  c = ' ' || c = Char.ofNat 9 || c = Char.ofNat 10 || c = Char.ofNat 13 ||
  c = Char.ofNat 11 || c = Char.ofNat 12

/-- `\w`-ness of the character before the scanner position (`none` at the
start of the string, where `\b` sees a non-word side). -/
def isWordCharOpt : Option Char → Bool
  | none => false
  | some c => isWordChar c

/-- `\w`-ness of the character after the scanner position (end of string
counts as non-word). -/
def headIsWordChar : List Char → Bool
  | [] => false
  | c :: _ => isWordChar c

/-- One pass of `re.sub(r'\b' + ch + r'\b', repl, s)` for a single
character `ch` (`manga_downloader_enhanced.py:714` and `:718`): scanning
left to right, an occurrence of `ch` is replaced when both of the `\b`
assertions hold, i.e. word-ness changes across each side of the
occurrence; the replacement text is emitted without being rescanned, and
scanning resumes at the following character of the input. -/
def subWordCharAux (c : Char) (repl : List Char) : Option Char → List Char → List Char
  | _, [] => []
  | prev, x :: rest =>
    if x = c && (isWordCharOpt prev != isWordChar x) && (isWordChar x != headIsWordChar rest) then
      repl ++ subWordCharAux c repl (some x) rest
    else
      x :: subWordCharAux c repl (some x) rest

/-- `re.sub` with a whole-word single-character pattern, on strings.
The replacement is inserted literally (the packer dictionaries the
source feeds in contain no `re` escape sequences). -/
def reSubWholeWord (c : Char) (repl : String) (s : String) : String :=
  String.mk (subWordCharAux c repl.data none s.data)

/-- The base-36 single-character placeholder of dictionary index `i`
(`manga_downloader_enhanced.py:712-717`): `str(i)` for `i < 10`,
`chr(ord('a') + i - 10)` for `i ≥ 10`. -/
def placeholderChar (i : Nat) : Char :=
  if i < 10 then Char.ofNat (48 + i) else Char.ofNat (97 + i - 10)

/-- Python `str.split(sep)` for a single-character separator, as a
structural recursion over the character list (`String.splitOn` has the
same semantics but does not evaluate inside the kernel). -/
def splitChar (c : Char) : List Char → List (List Char)
  | [] => [[]]
  | x :: rest =>
    let r := splitChar c rest
    if x = c then [] :: r
    else
      match r with
      | [] => [[x]]
      | y :: ys => (x :: y) :: ys

/-- `k_str.split('|')` (`manga_downloader_enhanced.py:701`). -/
def pySplitPipe (s : String) : List String := (splitChar '|' s.data).map String.mk

/-- The substitution loop (`manga_downloader_enhanced.py:707-718`):
`result = p_code`, then for each dictionary index in ascending order
whose entry is non-empty, one whole-word `re.sub` pass over the current
`result`. -/
def unpackLoop (p_code : String) (k_array : List String) : String :=
  k_array.enum.foldl
    (fun result ie =>
      if ie.2 ≠ "" then reSubWholeWord (placeholderChar ie.1) ie.2 result else result)
    p_code

/-- Specification-side restatement of the ascending sequential
substitution, written as a plain index-carrying recursion: entry `i`
(when non-empty) is substituted into the result of the passes for the
indices before `i`. -/
def sequentialSubSpec : String → Nat → List String → String
  | r, _, [] => r
  | r, i, e :: es =>
    sequentialSubSpec (if e = "" then r else reSubWholeWord (placeholderChar i) e r) (i + 1) es

/-- `int()` on a non-empty ASCII digit run. -/
def digitsToNat (l : List Char) : Nat := l.foldl (fun n c => n * 10 + (c.toNat - 48)) 0

/-- Attempt the packer-argument pattern
`\}\('([^']+)',(\d+),(\d+),'([^']*)'`
(`manga_downloader_enhanced.py:692`) at the current position.  Every
quantified piece is followed by a character it cannot match, so the
regex engine's greedy matching is the maximal-run scan implemented
here. -/
def matchPackerAt (l : List Char) : Option (String × String × String × String) :=
  match l with
  | x1 :: x2 :: x3 :: rest =>
    if x1 = Char.ofNat 125 ∧ x2 = '(' ∧ x3 = quoteChar then
      let p := rest.takeWhile (· ≠ quoteChar)
      let rest1 := rest.dropWhile (· ≠ quoteChar)
      if p ≠ [] then
        match rest1 with
        | q1 :: c1 :: rest2 =>
          if q1 = quoteChar ∧ c1 = ',' then
            let aDigits := rest2.takeWhile Char.isDigit
            let rest3 := rest2.dropWhile Char.isDigit
            if aDigits ≠ [] then
              match rest3 with
              | c2 :: rest4 =>
                if c2 = ',' then
                  let cDigits := rest4.takeWhile Char.isDigit
                  let rest5 := rest4.dropWhile Char.isDigit
                  if cDigits ≠ [] then
                    match rest5 with
                    | c3 :: q2 :: rest6 =>
                      if c3 = ',' ∧ q2 = quoteChar then
                        let kstr := rest6.takeWhile (· ≠ quoteChar)
                        let rest7 := rest6.dropWhile (· ≠ quoteChar)
                        match rest7 with
                        | q3 :: _ =>
                          if q3 = quoteChar then some (⟨p⟩, ⟨aDigits⟩, ⟨cDigits⟩, ⟨kstr⟩)
                          else none
                        | [] => none
                      else none
                    | _ => none
                  else none
                else none
              | [] => none
            else none
          else none
        | _ => none
      else none
    else none
  | _ => none

/-- `re.search` of the packer-argument pattern: leftmost position where
the shape parses. -/
def searchPackerArgs : List Char → Option (String × String × String × String)
  | [] => none
  | x :: rest =>
    match matchPackerAt (x :: rest) with
    | some r => some r
    | none => searchPackerArgs rest

/-- Lines 692-700 of `manga_downloader_enhanced.py`: the four matched
packer arguments `(p_code, a, c, k_str)`, with the numeric groups
decoded by `int` (the source never reads them afterwards). -/
def matchPackerArgs (s : String) : Option (String × Nat × Nat × String) :=
  (searchPackerArgs s.data).map
    (fun r => (r.1, digitsToNat r.2.1.data, digitsToNat r.2.2.1.data, r.2.2.2))

/-- Attempt `var\s+pix\s*=\s*["\']([^"\']+)["\']`
(`manga_downloader_enhanced.py:727`) at the current position. -/
def matchPixAt (l : List Char) : Option (List Char) :=
  match l with
  | 'v' :: 'a' :: 'r' :: rest =>
    let ws := rest.takeWhile isSpaceChar
    let rest1 := rest.dropWhile isSpaceChar
    if ws ≠ [] then
      match rest1 with
      | 'p' :: 'i' :: 'x' :: rest2 =>
        match rest2.dropWhile isSpaceChar with
        | '=' :: rest4 =>
          match rest4.dropWhile isSpaceChar with
          | q :: rest6 =>
            if isQuoteChar q then
              let v := rest6.takeWhile (fun c => !isQuoteChar c)
              let rest7 := rest6.dropWhile (fun c => !isQuoteChar c)
              if v ≠ [] ∧ rest7 ≠ [] then some v else none
            else none
          | [] => none
        | _ => none
      | _ => none
    else none
  | _ => none

/-- `re.search` of the `pix` pattern. -/
def searchPix : List Char → Option (List Char)
  | [] => none
  | x :: rest =>
    match matchPixAt (x :: rest) with
    | some r => some r
    | none => searchPix rest

/-- Attempt `pvalue\s*=\s*\[([^\]]+)\]`
(`manga_downloader_enhanced.py:728`) at the current position. -/
def matchPvalueAt (l : List Char) : Option (List Char) :=
  match l with
  | 'p' :: 'v' :: 'a' :: 'l' :: 'u' :: 'e' :: rest =>
    match rest.dropWhile isSpaceChar with
    | '=' :: rest2 =>
      match rest2.dropWhile isSpaceChar with
      | '[' :: rest4 =>
        let v := rest4.takeWhile (· ≠ ']')
        let rest5 := rest4.dropWhile (· ≠ ']')
        if v ≠ [] ∧ rest5 ≠ [] then some v else none
      | _ => none
    | _ => none
  | _ => none

/-- `re.search` of the `pvalue` pattern. -/
def searchPvalue : List Char → Option (List Char)
  | [] => none
  | x :: rest =>
    match matchPvalueAt (x :: rest) with
    | some r => some r
    | none => searchPvalue rest

/-- The four image-extension alternatives of the `findall` pattern. -/
def imageExts : List (List Char) := [".jpg".data, ".png".data, ".webp".data, ".gif".data]

/-- Does `.jpg|.png|.webp|.gif` occur as a prefix of this suffix? -/
def hasImageExtAt (l : List Char) : Bool := imageExts.any (fun e => e.isPrefixOf l)

/-- Does `.ext` occur at some position of the list? -/
def anySuffixExt : List Char → Bool
  | [] => false
  | c :: rest => hasImageExtAt (c :: rest) || anySuffixExt rest

/-- `re.findall(r'["\']([^"\']+\.(?:jpg|png|webp|gif)[^"\']*)["\']', s)`
(`manga_downloader_enhanced.py:735`): a match is an entire run of
non-quote characters between two quotes, provided the run contains a
recognised image extension preceded by at least one character; matches
are non-overlapping, scanning left to right. -/
def findImagePathsAux : List Char → List (List Char)
  | [] => []
  | x :: rest =>
    if isQuoteChar x then
      match h : rest.dropWhile (fun c => !isQuoteChar c) with
      | _ :: tail =>
        if rest.takeWhile (fun c => !isQuoteChar c) ≠ [] ∧
            anySuffixExt (rest.takeWhile (fun c => !isQuoteChar c)).tail then
          rest.takeWhile (fun c => !isQuoteChar c) :: findImagePathsAux tail
        else findImagePathsAux rest
      | [] => []
    else findImagePathsAux rest
termination_by l => l.length
decreasing_by
  · simp only [List.length_cons]
    rename_i restl hq hd hcond
    have h1 : (List.dropWhile (fun c => !isQuoteChar c) restl).length ≤ restl.length :=
      (List.dropWhile_sublist _).length_le
    rw [h] at h1
    simp only [List.length_cons] at h1
    omega
  · simp
  · simp

/-- Lines 741-750 of `manga_downloader_enhanced.py`: absolute URL from
base + relative path, normalising protocol-relative and bare-domain
forms. -/
def buildFullUrl (base rel : String) : String :=
  let full := base ++ rel
  if full.startsWith "//" then "https:" ++ full
  else if !full.startsWith "http" then "https://" ++ full
  else full

/-- `mangaDownloader._unpack_fanfox_javascript`
(`manga_downloader_enhanced.py:676-763`): match the packer arguments
(returning `none`, Python `None`, when the pattern does not match, line
697), run the substitution loop, extract `pix`/`pvalue`, and build the
full URLs; the fall-through `return []` of line 757 yields `some []`.
The body raises no exception on any input, so the `except` branch
(line 759-763) is unreachable in the model. -/
def unpack_fanfox_javascript (packed_js : String) : Option (List String) :=
  match matchPackerArgs packed_js with
  | none => none
  | some (p_code, _, _, k_str) =>
    let k_array := pySplitPipe k_str
    let result := unpackLoop p_code k_array
    match searchPix result.data, searchPvalue result.data with
    | some base, some pvalue_content =>
      let rel_paths := findImagePathsAux pvalue_content
      if rel_paths ≠ [] then
        some (rel_paths.map (fun rel => buildFullUrl (String.mk base) (String.mk rel)))
      else some []
    | _, _ => some []

/-- `mangaDownloader._extract_image_urls_from_packed_js`
(`manga_downloader_enhanced.py:765-778`): `urls if urls else []`, with
both Python `None` and the empty list mapping to `[]`. -/
def extract_image_urls_from_packed_js (packed_js : String) : List String :=
  match unpack_fanfox_javascript packed_js with
  | none => []
  | some urls => if urls.isEmpty then [] else urls

/-! ## Shared string utilities of the connector models

Python string primitives used by the connectors, embedded as structural
recursions over character lists so that they both mirror the Python
semantics and evaluate inside the kernel.  Case mapping is modelled over
ASCII. -/

/-- Python `p in s` (substring containment) on character lists. -/
def listContains (big small : List Char) : Bool :=
  match big with
  | [] => small.isEmpty
  | _ :: rest => small.isPrefixOf big || listContains rest small

/-- Python `sub in s` on strings. -/
def strContains (s sub : String) : Bool := listContains s.data sub.data

/-- Python `s.startswith(p)`. -/
def strStartsWith (s p : String) : Bool := p.data.isPrefixOf s.data

/-- Python `s.lower()` (ASCII). -/
def pyLower (s : String) : String := String.mk (s.data.map Char.toLower)

/-- Python `s.strip()`: drop leading and trailing whitespace. -/
def pyStrip (s : String) : String :=
  String.mk (((s.data.dropWhile isSpaceChar).reverse.dropWhile isSpaceChar).reverse)

/-- Python `str.title()` (ASCII): the first letter of each run of
letters is upper-cased, the rest lower-cased. -/
def pyTitleAux : Bool → List Char → List Char
  | _, [] => []
  | prevAlpha, c :: rest =>
    (if c.isAlpha then (if prevAlpha then c.toLower else c.toUpper) else c) ::
      pyTitleAux c.isAlpha rest

/-- Python `s.title()` (ASCII). -/
def pyTitle (s : String) : String := String.mk (pyTitleAux false s.data)

/-- Python `s.split(sep)` for a non-empty separator: leftmost
non-overlapping occurrences split the string.  The fuel is the length of
the scanned list, which bounds the number of scanning steps. -/
def splitSeqAux (sep : List Char) : Nat → List Char → List Char → List (List Char)
  | _, [], acc => [acc.reverse]
  | 0, l, acc => [acc.reverse ++ l]
  | fuel + 1, x :: rest, acc =>
    if sep.isPrefixOf (x :: rest) then
      acc.reverse :: splitSeqAux sep fuel ((x :: rest).drop sep.length) []
    else splitSeqAux sep fuel rest (x :: acc)

/-- Python `s.split(sep)` on strings (`sep` non-empty). -/
def pySplit (sep s : String) : List String :=
  (splitSeqAux sep.data s.data.length s.data []).map String.mk

/-- Python `s.replace(old, new)` for single characters. -/
def replaceChar (old new : Char) (s : String) : String :=
  String.mk (s.data.map (fun c => if c = old then new else c))

/-- Code-point comparison `a <= b` on character lists, Python's string
ordering. -/
def lexLe : List Char → List Char → Bool
  | [], _ => true
  | _ :: _, [] => false
  | a :: as, b :: bs =>
    if a.toNat < b.toNat then true
    else if b.toNat < a.toNat then false
    else lexLe as bs

/-! ## mangaFox connector (`mangaFoxConnector`, `manga_connectors.py:75-603`)

The HTML fetches and BeautifulSoup queries are the connector's only
effects; the anchors they produce (`href`, link text, surrounding genre
links) enter the model as explicit candidate lists. -/

/-- `urllib.parse.urljoin('https://mangahub.us', href)` for the href
shapes the connector meets (absolute http(s), protocol-relative,
root-relative and bare-relative references against the path-less base). -/
def urljoin_mangahub (href : String) : String :=
  if strStartsWith href "http" then href
  else if strStartsWith href "//" then "https:" ++ href
  else if strStartsWith href "/" then "https://mangahub.us" ++ href
  else "https://mangahub.us/" ++ href

/-- One anchor of the search-results page: its `href`, its stripped text
and the genre-link texts of its parent container
(`manga_connectors.py:161-191`). -/
structure FoxSearchCandidate where
  href : String
  text : String
  genres : List String
deriving Repr, DecidableEq

/-- One entry of `mangaFoxConnector.search_manga`'s result list
(`manga_connectors.py:212-221`). -/
structure FoxSearchResult where
  id : String
  title : String
  source : String
  url : String
  type : String
  language : String
  genres : List String
  relevance_score : Nat
deriving Repr, DecidableEq

/-- `href.split('/manga/')[-1].split('/')[0]`
(`manga_connectors.py:176`). -/
def manga_name_of_href (href : String) : String :=
  String.mk ((splitChar '/' ((pySplit "/manga/" href).getLastD "").data).headD [])

/-- The relevance score (`manga_connectors.py:195-209`): exact match
100, prefix 50, title substring 20, slug substring 10, else 0; all
comparisons on lower-cased strings. -/
def relevance_score (query_lower title_lower slug_lower : String) : Nat :=
  if title_lower = query_lower then 100
  else if strStartsWith title_lower query_lower then 50
  else if strContains title_lower query_lower then 20
  else if strContains slug_lower query_lower then 10
  else 0

/-- Scoring of one (deduplicated) anchor
(`manga_connectors.py:175-223`): slug extraction, title fallback to the
title-cased slug, the `if manga_name and title` gate, and the
`if score > 0` gate; `none` models "not appended". -/
def fox_score_candidate (query : String) (link : FoxSearchCandidate) :
    Option FoxSearchResult :=
  let manga_name := manga_name_of_href link.href
  let title := if 2 < link.text.length then link.text
    else pyTitle (replaceChar '-' ' ' manga_name)
  if manga_name ≠ "" ∧ title ≠ "" then
    let score := relevance_score (pyLower query) (pyLower title) (pyLower manga_name)
    if 0 < score then
      some { id := manga_name, title := title, source := "mangaFox",
             url := urljoin_mangahub link.href, type := "manga",
             language := "english", genres := link.genres,
             relevance_score := score }
    else none
  else none

/-- The `seen_urls` set (`manga_connectors.py:157,170-173`): a candidate
whose `href` was already seen is skipped before any scoring. -/
def dedupByHref : List FoxSearchCandidate → List FoxSearchCandidate
  | [] => []
  | l :: rest => l :: dedupByHref (rest.filter (fun x => x.href ≠ l.href))
termination_by l => l.length
decreasing_by
  simp only [List.length_cons]
  have := List.length_filter_le (fun x => x.href ≠ l.href) rest
  omega

/-- The scored result list in candidate order, before sorting
(`scored_results` of `manga_connectors.py:164-223`). -/
def fox_scored (query : String) (links : List FoxSearchCandidate) :
    List FoxSearchResult :=
  (dedupByHref links).filterMap (fox_score_candidate query)

/-- Descending-score ordering used by
`scored_results.sort(key=..., reverse=True)`; Python's sort is stable,
as is `List.insertionSort`. -/
def scoreGe (a b : FoxSearchResult) : Prop :=
  b.relevance_score ≤ a.relevance_score

instance : DecidableRel scoreGe := fun a b =>
  inferInstanceAs (Decidable (b.relevance_score ≤ a.relevance_score))

instance : IsTotal FoxSearchResult scoreGe :=
  ⟨fun a b => (Nat.le_total b.relevance_score a.relevance_score).elim Or.inl Or.inr⟩

instance : IsTrans FoxSearchResult scoreGe :=
  ⟨fun _ _ _ hab hbc => Nat.le_trans hbc hab⟩

/-- `results = scored_results[:limit] if limit else scored_results`
(`manga_connectors.py:227`); Python treats both `None` and `0` as "no
limit". -/
def applyLimit (limit : Option Nat) (l : List FoxSearchResult) : List FoxSearchResult :=
  match limit with
  | none => l
  | some n => if n = 0 then l else l.take n

/-- `mangaFoxConnector.search_manga` (`manga_connectors.py:148-234`),
as a function of the anchors found on the search-results page. -/
def fox_search_manga (query : String) (links : List FoxSearchCandidate)
    (limit : Option Nat) : List FoxSearchResult :=
  applyLimit limit (List.insertionSort scoreGe (fox_scored query links))

/-- One chapter entry of `mangaFoxConnector.get_chapters`
(`manga_connectors.py:282-291`). -/
structure FoxChapter where
  id : String
  name : String
  title : String
  url : String
  fallback_urls : List String
  manga_id : String
  chapter_num : Nat
  language : String
deriving Repr, DecidableEq

/-- `re.search(r'/chapter-(\d+)', href)` at one position: the literal
`/chapter-` followed by a maximal non-empty digit run. -/
def matchChapterNumAt (l : List Char) : Option Nat :=
  if ("/chapter-".data).isPrefixOf l then
    let ds := (l.drop 9).takeWhile Char.isDigit
    if ds ≠ [] then some (digitsToNat ds) else none
  else none

/-- Leftmost `re.search` of the chapter-number pattern. -/
def searchChapterNum : List Char → Option Nat
  | [] => none
  | x :: rest =>
    match matchChapterNumAt (x :: rest) with
    | some n => some n
    | none => searchChapterNum rest

/-- `int(re.search(r'/chapter-(\d+)', href).group(1))` on strings. -/
def extract_chapter_num (href : String) : Option Nat := searchChapterNum href.data

/-- The filtered (chapter number, full link) pairs collected by the
anchor loop of `manga_connectors.py:249-267`, in page order. -/
def foxChapterPairs (manga_name : String) (hrefs : List String) : List (Nat × String) :=
  hrefs.filterMap (fun href =>
    if strContains href "/chapter/" ∧ strContains href manga_name then
      match extract_chapter_num href with
      | some n =>
        some (n, if strStartsWith href "http" then href else urljoin_mangahub href)
      | none => none
    else none)

/-- The insertion-ordered grouping performed by the `chapter_urls` dict
(`manga_connectors.py:246,264-267`): keys in first-occurrence order,
each bucket holding that chapter number's links in page order. -/
def groupPairs : List (Nat × String) → List (Nat × List String)
  | [] => []
  | (n, u) :: rest =>
    (n, u :: (rest.filter (fun p => p.1 = n)).map Prod.snd) ::
      groupPairs (rest.filter (fun p => p.1 ≠ n))
termination_by l => l.length
decreasing_by
  simp only [List.length_cons]
  have := List.length_filter_le (fun p => p.1 ≠ n) rest
  omega

/-- `urls.sort(key=lambda x: (len(x), x))`
(`manga_connectors.py:272`): by length first, then code-point order. -/
def urlLe (a b : String) : Prop :=
  a.length < b.length ∨ (a.length = b.length ∧ lexLe a.data b.data = true)

instance : DecidableRel urlLe := fun a b =>
  inferInstanceAs (Decidable (_ ∨ _))

/-- The invalid directory-name characters replaced by `_`
(`manga_connectors.py:278-280`). -/
def invalid_title_chars : List Char :=
  ['<', '>', ':', Char.ofNat 34, '|', '?', '*', Char.ofNat 92]

/-- The title sanitisation loop of `manga_connectors.py:277-280`. -/
def sanitizeTitle (t : String) : String :=
  invalid_title_chars.foldl (fun acc c => replaceChar c (Char.ofNat 95) acc) t

/-- One chapter entry built from a bucket
(`manga_connectors.py:270-291`): URLs sorted shortest-first, the head as
primary, the rest as fallbacks. -/
def mkFoxChapter (manga_name : String) (n : Nat) (urls : List String) : FoxChapter :=
  let sorted_urls := List.insertionSort urlLe urls
  let title := sanitizeTitle ("Chapter " ++ toString n)
  { id := manga_name ++ "/chapter-" ++ toString n, name := title, title := title,
    url := sorted_urls.headD "", fallback_urls := sorted_urls.tail,
    manga_id := manga_name, chapter_num := n, language := "english" }

/-- Ascending chapter-number ordering of the final
`chapters.sort(key=lambda x: x['chapter_num'])`
(`manga_connectors.py:294`). -/
def chapLe (a b : FoxChapter) : Prop := a.chapter_num ≤ b.chapter_num

instance : DecidableRel chapLe := fun a b =>
  inferInstanceAs (Decidable (a.chapter_num ≤ b.chapter_num))

instance : IsTotal FoxChapter chapLe :=
  ⟨fun a b => Nat.le_total a.chapter_num b.chapter_num⟩

instance : IsTrans FoxChapter chapLe :=
  ⟨fun _ _ _ hab hbc => Nat.le_trans hab hbc⟩

/-- `mangaFoxConnector.get_chapters` (`manga_connectors.py:236-301`), as
a function of the manga id (`manga_name`) and the hrefs of all anchors
of the series page. -/
def fox_get_chapters (manga_name : String) (hrefs : List String) : List FoxChapter :=
  List.insertionSort chapLe
    ((groupPairs (foxChapterPairs manga_name hrefs)).map
      (fun g => mkFoxChapter manga_name g.1 g.2))

/-- `manga.get('url') or urljoin(self.base_url, f"/manga/{manga['id']}")`
(`manga_connectors.py:239`): the URL `get_chapters` fetches, from the
entry's `url` field when present and truthy, otherwise constructed from
the `id` field alone. -/
def fox_get_chapters_request_url (murl : Option String) (mid : String) : String :=
  match murl with
  | some u => if u = "" then urljoin_mangahub ("/manga/" ++ mid) else u
  | none => urljoin_mangahub ("/manga/" ++ mid)

/-! ## OmegaScans connector (`OmegaScansConnector`, `manga_connectors.py:606-900`)

A JSON-API connector; the parsed response payloads enter the model as
record lists.  The composite id the connector smuggles through the `id`
string field is `json.dumps({'id': ..., 'slug': ...})`, modelled
bit-exactly (including `json.dumps`'s default `", "`/`": "` separators)
for slugs free of JSON escapes. -/

/-- The ASCII digit character of `n < 10`. -/
def digitChar (n : Nat) : Char := "0123456789".data.getD n '0'

/-- Decimal digits of `n`, most significant first (`repr` of a
non-negative Python int); the fuel is only a structural-recursion
bound. -/
def natDecimalAux : Nat → Nat → List Char
  | 0, _ => []
  | fuel + 1, n =>
    if n < 10 then [digitChar n]
    else natDecimalAux fuel (n / 10) ++ [digitChar (n % 10)]

/-- Decimal rendering of a natural number. -/
def natDecimal (n : Nat) : List Char := natDecimalAux (n + 1) n

/-- `repr` of a Python int (what `json.dumps` emits for a number). -/
def intDecimal (i : Int) : List Char :=
  if i < 0 then '-' :: natDecimal i.natAbs else natDecimal i.toNat

/-- `json.dumps({'id': i, 'slug': slug})`
(`manga_connectors.py:659,721`): the exact serialised composite id, for
slugs containing no character `json.dumps` would escape. -/
def json_dumps_id_slug (i : Int) (slug : String) : String :=
  "\x7b\"id\": " ++ String.mk (intDecimal i) ++ ", \"slug\": \"" ++ slug ++ "\"\x7d"

/-- Expect a literal prefix, returning the remainder. -/
def expectPrefix (pre l : List Char) : Option (List Char) :=
  if pre.isPrefixOf l then some (l.drop pre.length) else none

/-- Parse an optional `-` sign followed by a non-empty digit run (the
JSON rendering of a Python int), returning the value and the
remainder. -/
def parseIntPrefix (l : List Char) : Option (Int × List Char) :=
  let neg : Bool := (l.head?.map (fun c => c == '-')).getD false
  let l2 := if neg then l.drop 1 else l
  let ds := l2.takeWhile Char.isDigit
  let rest := l2.dropWhile Char.isDigit
  if ds ≠ [] then
    some (if neg then -(digitsToNat ds : Int) else (digitsToNat ds : Int), rest)
  else none

/-- Parse the slug body up to the closing `"` and final brace. -/
def parseSlugTail (l : List Char) : Option String :=
  let sl := l.takeWhile (fun c => !(c == dquoteChar))
  let rest := l.dropWhile (fun c => !(c == dquoteChar))
  if rest = "\"\x7d".data then some (String.mk sl) else none

/-- `json.loads` of a composite id, restricted to the canonical shape
`json_dumps_id_slug` produces — the only shape this connector ever
stores in an entry's `id` field (`manga_connectors.py:763,799`).
Returns `none` (the Python `json.loads` exception) on any other
input. -/
def json_loads_id_slug (s : String) : Option (Int × String) :=
  (expectPrefix "\x7b\"id\": ".data s.data).bind (fun l1 =>
    (parseIntPrefix l1).bind (fun il =>
      (expectPrefix ", \"slug\": \"".data il.2).bind (fun l4 =>
        (parseSlugTail l4).map (fun slug => (il.1, slug)))))

/-- One record of the OmegaScans series API payload
(`data['data']` entries of `_search_api` / `_get_mangas_from_page`). -/
structure OSRawManga where
  id : Int
  series_slug : String
  title : String
  adult : Bool
deriving Repr, DecidableEq

/-- One catalog entry built by `OmegaScansConnector` search/list
operations (`manga_connectors.py:658-668,720-730`). -/
structure OSEntry where
  id : String
  title : String
  source : String
  url : String
  type : String
  language : String
  adult : Bool
  series_slug : String
  series_id : Int
deriving Repr, DecidableEq

/-- Entry construction shared by `_search_api` and
`_get_mangas_from_page`. -/
def omega_entry_of_raw (m : OSRawManga) : OSEntry :=
  { id := json_dumps_id_slug m.id m.series_slug, title := m.title,
    source := "OmegaScans", url := "https://omegascans.org/series/" ++ m.series_slug,
    type := "webtoon", language := "english", adult := m.adult,
    series_slug := m.series_slug, series_id := m.id }

/-- `OmegaScansConnector._search_api` (`manga_connectors.py:708-739`):
the API's result order is kept as-is; `data['data'][:limit] if limit
else data['data']`. -/
def omega_search_api (data : List OSRawManga) (limit : Option Nat) : List OSEntry :=
  (match limit with
   | none => data
   | some n => if n = 0 then data else data.take n).map omega_entry_of_raw

/-- The local-filter fallback of `OmegaScansConnector.search_manga`
(`manga_connectors.py:690-699`): keep catalog entries whose lower-cased
title contains the lower-cased query, in catalog order, stopping at the
limit. -/
def omega_local_filter (query : String) (catalog : List OSEntry)
    (limit : Option Nat) : List OSEntry :=
  let filtered := catalog.filter (fun m => strContains (pyLower m.title) (pyLower query))
  match limit with
  | none => filtered
  | some n => if n = 0 then filtered else filtered.take n

/-- `OmegaScansConnector.search_manga` (`manga_connectors.py:679-706`):
API results when non-empty, otherwise the local filter over the fetched
catalog. -/
def omega_search_manga (query : String) (api_data : List OSRawManga)
    (catalog : List OSEntry) (limit : Option Nat) : List OSEntry :=
  let results := omega_search_api api_data limit
  if results.isEmpty then omega_local_filter query catalog limit else results

/-- The outbound requests `OmegaScansConnector` can issue, tagged by
endpoint; `omega_request_url` renders the exact URL of each. -/
inductive OmegaRequest where
  | seriesEndpoint (slug : String)
  | chapterQuery (series_id : Int)
  | searchQuery (query : String)
  | catalogPage (page : Nat) (adult : Bool)
deriving Repr, DecidableEq

/-- Python `query.replace(' ', '%20')`. -/
def escapeSpaces (s : String) : String :=
  String.mk (s.data.flatMap (fun c => if c = ' ' then "%20".data else [c]))

/-- The URL each request renders to (`manga_connectors.py:649,712,766,803`). -/
def omega_request_url : OmegaRequest → String
  | .seriesEndpoint slug => "https://api.omegascans.org/series/" ++ slug
  | .chapterQuery sid =>
    "https://api.omegascans.org/chapter/query?series_id=" ++ String.mk (intDecimal sid) ++
      "&perPage=9999&page=1"
  | .searchQuery q => "https://api.omegascans.org/query/" ++ escapeSpaces q
  | .catalogPage page adult =>
    "https://api.omegascans.org/query?perPage=100&page=" ++ String.mk (natDecimal page) ++
      "&adult=" ++ (if adult then "true" else "false")

/-- The single request `_get_chapters_v1` issues
(`manga_connectors.py:763-767`): the series endpoint for the slug
recovered from the composite id; `none` when `json.loads` fails (the
`except` branch returns `[]` without any request). -/
def omega_chapters_v1_request (manga_id_field : String) : Option OmegaRequest :=
  (json_loads_id_slug manga_id_field).map (fun p => OmegaRequest.seriesEndpoint p.2)

/-- One chapter record of the V1 series payload
(`season['chapters']` entries). -/
structure OSRawChapter where
  id : Int
  chapter_slug : String
  chapter_name : String
  chapter_title : Option String
deriving Repr, DecidableEq

/-- One season of the V1 series payload. -/
structure OSSeason where
  index : Int
  chapters : List OSRawChapter
deriving Repr, DecidableEq

/-- One chapter entry of `OmegaScansConnector` chapter lists
(`manga_connectors.py:778-788`). -/
structure OSChapter where
  id : String
  title : String
  url : String
  manga_id : String
  chapter_slug : String
  chapter_id : Int
deriving Repr, DecidableEq

/-- `OmegaScansConnector._get_chapters_v1`
(`manga_connectors.py:760-794`) as a function of the composite id and
the `seasons` payload: chapters are appended in payload order — no
numeric sort, no duplicate collapsing and no fallback URLs. -/
def omega_get_chapters_v1 (manga_id_field : String) (seasons : List OSSeason) :
    List OSChapter :=
  match json_loads_id_slug manga_id_field with
  | none => []
  | some (_, slug) =>
    seasons.flatMap (fun season =>
      season.chapters.map (fun ch =>
        let seasonTag :=
          if 1 < seasons.length then "S" ++ String.mk (intDecimal season.index) ++ " " else ""
        let title := pyStrip (seasonTag ++ ch.chapter_name ++ " " ++ ch.chapter_title.getD "")
        { id := json_dumps_id_slug ch.id ch.chapter_slug, title := title,
          url := "https://omegascans.org/series/" ++ slug ++ "/" ++ ch.chapter_slug,
          manga_id := manga_id_field, chapter_slug := ch.chapter_slug,
          chapter_id := ch.id }))

/-- `OmegaScansConnector.get_chapters` (`manga_connectors.py:741-758`):
the V1 result, with the V2 result only as fallback when V1 is empty. -/
def omega_get_chapters (v1_chapters v2_chapters : List OSChapter) : List OSChapter :=
  if v1_chapters.isEmpty then v2_chapters else v1_chapters

/-- One image reference of the chapter payload: either a bare URL string
or a dict with `src`/`url` keys (`manga_connectors.py:873-877`). -/
inductive OSImage where
  | strUrl (s : String)
  | dictUrl (src url : Option String)
deriving Repr, DecidableEq

/-- The `data['chapter']` sub-object of the chapter API payload, with
the nested `.get` defaults collapsed: `chapter_type`
(`chapter_info.get('chapter_type', '')`), the
`chapter_data.images` list and the `storage` field. -/
structure OmegaChapterInfo where
  chapter_type : Option String
  images : List OSImage
  storage : Option String
deriving Repr, DecidableEq

/-- The chapter API payload of `OmegaScansConnector.get_pages`:
`paywall` truthiness, the optional `chapter` sub-object, and the
optional top-level `data` image list. -/
structure OmegaChapterResp where
  paywall : Bool
  chapter : Option OmegaChapterInfo
  data_images : Option (List OSImage)
deriving Repr, DecidableEq

/-- `image.get('src') or image.get('url', '')`, or the bare string. -/
def osImageUrl : OSImage → String
  | .strUrl s => s
  | .dictUrl src url =>
    match src with
    | some s => if s = "" then (url.getD "") else s
    | none => url.getD ""

/-- The body of the `try` block of `OmegaScansConnector.get_pages`
(`manga_connectors.py:833-896`): a paywalled payload raises
(`raise Exception("Chapter is paywalled. Please login.")`, line 852),
modelled as `Except.error`; every other path returns its page list. -/
def omega_get_pages_body (resp : OmegaChapterResp) : Except String (List String) :=
  if resp.paywall then .error "Chapter is paywalled. Please login."
  else
    let is_novel : Bool := match resp.chapter with
      | some info => pyLower (info.chapter_type.getD "") == "novel"
      | none => false
    if is_novel then .ok []
    else
      let fallback_images := (resp.chapter.map (fun info => info.images)).getD []
      let images := match resp.data_images with
        | some l => if l.isEmpty then fallback_images else l
        | none => fallback_images
      if images.isEmpty then .ok []
      else
        let storage := (resp.chapter.bind (fun info => info.storage)).getD "s3"
        .ok (images.foldl (fun pages image =>
          let image_url := osImageUrl image
          if image_url = "" then pages
          else if storage = "s3" then pages ++ [image_url]
          else if storage = "local" then
            pages ++ [if strStartsWith image_url "http" then image_url
                      else "https://api.omegascans.org" ++ image_url]
          else pages ++ [image_url]) [])

/-- `OmegaScansConnector.get_pages` as the caller sees it: the
function-wide `except Exception` (`manga_connectors.py:898-900`) turns
every raised error — the paywall signal included — into `[]`. -/
def omega_get_pages (resp : OmegaChapterResp) : List String :=
  match omega_get_pages_body resp with
  | .error _ => []
  | .ok pages => pages

/-! # Helper lemmas -/

/-- The index-carrying fold of the substitution loop agrees with the
specification-side sequential recursion, for any starting index. -/
theorem unpackLoop_enumFrom_eq_seq :
    ∀ (es : List String) (i : Nat) (r : String),
      (es.enumFrom i).foldl
        (fun result ie =>
          if ie.2 ≠ "" then reSubWholeWord (placeholderChar ie.1) ie.2 result else result)
        r = sequentialSubSpec r i es := by
  intro es
  induction es with
  | nil => intro i r; rfl
  | cons e es ih =>
    intro i r
    simp only [List.enumFrom, List.foldl, sequentialSubSpec]
    rw [ih]
    by_cases he : e = ""
    · simp [he]
    · simp [he]

/-- A whole-word substitution pass leaves a string without any occurrence
of the pattern character unchanged. -/
theorem subWordCharAux_not_mem (c : Char) (repl : List Char) :
    ∀ (l : List Char) (prev : Option Char), c ∉ l → subWordCharAux c repl prev l = l := by
  intro l
  induction l with
  | nil => intro prev _; rfl
  | cons x rest ih =>
    intro prev h
    have hx : ¬(x = c) := fun he => h (he ▸ List.mem_cons_self x rest)
    have hrest : c ∉ rest := fun hm => h (List.mem_cons_of_mem x hm)
    simp only [subWordCharAux, hx, decide_False, Bool.false_and, if_false,
      Bool.false_eq_true]
    rw [ih (some x) hrest]

/-- `lexLe` is total. -/
theorem lexLe_total : ∀ a b : List Char, lexLe a b = true ∨ lexLe b a = true := by
  intro a
  induction a with
  | nil => intro b; left; rfl
  | cons x xs ih =>
    intro b
    cases b with
    | nil => right; rfl
    | cons y ys =>
      simp only [lexLe]
      rcases Nat.lt_trichotomy x.toNat y.toNat with h | h | h
      · left; simp [h]
      · rw [if_neg (by omega), if_neg (by omega), if_neg (by omega), if_neg (by omega)]
        exact ih ys
      · right; simp [h]

/-- `lexLe` is transitive. -/
theorem lexLe_trans : ∀ a b c : List Char,
    lexLe a b = true → lexLe b c = true → lexLe a c = true := by
  intro a
  induction a with
  | nil => intro b c _ _; rfl
  | cons x xs ih =>
    intro b c hab hbc
    cases b with
    | nil => simp [lexLe] at hab
    | cons y ys =>
      cases c with
      | nil => simp [lexLe] at hbc
      | cons z zs =>
        simp only [lexLe] at hab hbc ⊢
        rcases Nat.lt_trichotomy x.toNat y.toNat with h1 | h1 | h1 <;>
          rcases Nat.lt_trichotomy y.toNat z.toNat with h2 | h2 | h2
        all_goals first
          | (rw [if_pos (by omega)])
          | (rw [if_neg (by omega), if_pos (by omega)] at hab ⊢; exact absurd hab (by simp))
          | (rw [if_neg (by omega), if_pos (by omega)] at hbc; exact absurd hbc (by simp))
          | (rw [if_neg (by omega), if_neg (by omega)] at hab hbc ⊢;
             exact ih ys zs hab hbc)
          | (rw [if_neg (by omega), if_pos (by omega)] at hab; exact absurd hab (by simp))

instance : IsTotal String urlLe := by
  constructor
  intro a b
  rcases Nat.lt_trichotomy a.length b.length with h | h | h
  · exact Or.inl (Or.inl h)
  · rcases lexLe_total a.data b.data with hl | hl
    · exact Or.inl (Or.inr ⟨h, hl⟩)
    · exact Or.inr (Or.inr ⟨h.symm, hl⟩)
  · exact Or.inr (Or.inl h)

instance : IsTrans String urlLe := by
  constructor
  intro a b c hab hbc
  rcases hab with h1 | ⟨h1, hl1⟩ <;> rcases hbc with h2 | ⟨h2, hl2⟩
  · exact Or.inl (by omega)
  · exact Or.inl (by omega)
  · exact Or.inl (by omega)
  · exact Or.inr ⟨by omega, lexLe_trans _ _ _ hl1 hl2⟩

/-- A true `urlLe` implies the left string is no longer. -/
theorem urlLe_length {a b : String} (h : urlLe a b) : a.length ≤ b.length := by
  rcases h with h | ⟨h, _⟩ <;> omega

/-- `l.isPrefixOf (l ++ r)` always holds. -/
theorem isPrefixOf_append_self : ∀ l r : List Char, l.isPrefixOf (l ++ r) = true := by
  intro l
  induction l with
  | nil => intro r; simp [List.isPrefixOf]
  | cons x xs ih => intro r; simpa [List.isPrefixOf] using ih r

/-- `takeWhile`/`dropWhile` across an append whose left part satisfies
the predicate and whose right part starts with a failing element. -/
theorem takeWhile_dropWhile_append {p : Char → Bool} :
    ∀ (l₁ l₂ : List Char), (∀ x ∈ l₁, p x = true) →
      (∀ c, l₂.head? = some c → p c = false) →
      (l₁ ++ l₂).takeWhile p = l₁ ∧ (l₁ ++ l₂).dropWhile p = l₂ := by
  intro l₁
  induction l₁ with
  | nil =>
    intro l₂ _ h2
    cases l₂ with
    | nil => exact ⟨rfl, rfl⟩
    | cons c t =>
      have := h2 c rfl
      simp [List.takeWhile_cons, List.dropWhile_cons, this]
  | cons x xs ih =>
    intro l₂ h1 h2
    have hx : p x = true := h1 x (List.mem_cons_self x xs)
    have h1' : ∀ y ∈ xs, p y = true := fun y hy => h1 y (List.mem_cons_of_mem x hy)
    obtain ⟨ht, hd⟩ := ih l₂ h1' h2
    simp [List.takeWhile_cons, List.dropWhile_cons, hx, ht, hd]

/-- Digit characters: well-formedness facts for each `n < 10`. -/
theorem digitChar_spec : ∀ n : Nat, n < 10 →
    (digitChar n).isDigit = true ∧ (digitChar n).toNat - 48 = n ∧
    digitChar n ≠ '-' ∧ digitChar n ≠ dquoteChar := by
  intro n h
  interval_cases n <;> exact ⟨by decide, by decide, by decide, by decide⟩

/-- Correctness of the decimal rendering: non-empty, all digits, and
`digitsToNat` inverts it. -/
theorem natDecimalAux_spec : ∀ (fuel n : Nat), n < 10 ^ (fuel + 1) →
    natDecimalAux (fuel + 1) n ≠ [] ∧
    (∀ c ∈ natDecimalAux (fuel + 1) n, c.isDigit = true) ∧
    digitsToNat (natDecimalAux (fuel + 1) n) = n := by
  intro fuel
  induction fuel with
  | zero =>
    intro n hn
    have h10 : n < 10 := by simpa using hn
    simp only [natDecimalAux, if_pos h10]
    obtain ⟨hd, hv, _, _⟩ := digitChar_spec n h10
    refine ⟨by simp, by simpa using hd, ?_⟩
    simp [digitsToNat, hv]
  | succ fuel ih =>
    intro n hn
    by_cases h10 : n < 10
    · simp only [natDecimalAux, if_pos h10]
      obtain ⟨hd, hv, _, _⟩ := digitChar_spec n h10
      refine ⟨by simp, by simpa using hd, ?_⟩
      simp [digitsToNat, hv]
    · have hstep : natDecimalAux (fuel + 1 + 1) n =
          natDecimalAux (fuel + 1) (n / 10) ++ [digitChar (n % 10)] := by
        rw [natDecimalAux, if_neg h10]
      rw [hstep]
      have hdiv : n / 10 < 10 ^ (fuel + 1) := by
        rw [pow_succ] at hn
        omega
      obtain ⟨hne, hdig, hval⟩ := ih (n / 10) hdiv
      obtain ⟨hd, hv, _, _⟩ := digitChar_spec (n % 10) (Nat.mod_lt n (by omega))
      refine ⟨by simp, ?_, ?_⟩
      · intro c hc
        rcases List.mem_append.mp hc with hc | hc
        · exact hdig c hc
        · simp at hc; subst hc; exact hd
      · simp only [digitsToNat] at hval ⊢
        rw [List.foldl_append]
        simp only [List.foldl]
        rw [hval, hv]
        omega

/-- Correctness of `natDecimal`. -/
theorem natDecimal_spec (n : Nat) :
    natDecimal n ≠ [] ∧ (∀ c ∈ natDecimal n, c.isDigit = true) ∧
    digitsToNat (natDecimal n) = n :=
  natDecimalAux_spec n n (lt_of_lt_of_le (Nat.lt_pow_self (by norm_num) n)
    (Nat.pow_le_pow_right (by norm_num) (by omega)))

/-- Splitting scan over a region free of the separator's head
character. -/
theorem splitSeqAux_no_sep (s0 : Char) (srest : List Char) :
    ∀ (m : List Char) (fuel : Nat) (acc : List Char), m.length ≤ fuel → s0 ∉ m →
      splitSeqAux (s0 :: srest) fuel m acc = [acc.reverse ++ m] := by
  intro m
  induction m with
  | nil => intro fuel acc _ _; cases fuel <;> simp [splitSeqAux]
  | cons x rest ih =>
    intro fuel acc hlen hnot
    have hx : s0 ≠ x := fun he => hnot (he ▸ List.mem_cons_self x rest)
    have hrest : s0 ∉ rest := fun hm => hnot (List.mem_cons_of_mem x hm)
    cases fuel with
    | zero => simp at hlen
    | succ f =>
      have hpre : (s0 :: srest).isPrefixOf (x :: rest) = false := by
        simp [List.isPrefixOf, hx]
      simp only [splitSeqAux, hpre, Bool.false_eq_true, if_false]
      rw [ih f (x :: acc) (by simp only [List.length_cons] at hlen; omega) hrest]
      simp

/-- `splitChar` over a region free of the separator. -/
theorem splitChar_no_sep (c : Char) : ∀ m : List Char, c ∉ m → splitChar c m = [m] := by
  intro m
  induction m with
  | nil => intro _; rfl
  | cons x rest ih =>
    intro hnot
    have hx : ¬(x = c) := fun he => hnot (he ▸ List.mem_cons_self x rest)
    have hrest : c ∉ rest := fun hm => hnot (List.mem_cons_of_mem x hm)
    simp only [splitChar, ih hrest, if_neg hx]

/-- Equal `data` gives equal strings. -/
theorem string_data_eq {s t : String} (h : s.data = t.data) : s = t := by
  cases s; cases t; exact congrArg String.mk h

/-- Rebuilding a string from its own `data` is the identity. -/
theorem string_mk_data (s : String) : String.mk s.data = s := by
  cases s; rfl

/-- `expectPrefix` accepts exactly its own prefix. -/
theorem expectPrefix_append (pre rest : List Char) :
    expectPrefix pre (pre ++ rest) = some rest := by
  simp only [expectPrefix, isPrefixOf_append_self, if_pos, List.drop_left]

/-- `parseIntPrefix` inverts the decimal rendering of an integer, when
the remainder does not begin with a digit or a minus sign. -/
theorem parseIntPrefix_intDecimal (i : Int) (rest : List Char)
    (hrest : ∀ c, rest.head? = some c → c.isDigit = false ∧ c ≠ '-') :
    parseIntPrefix (intDecimal i ++ rest) = some (i, rest) := by
  by_cases hneg : i < 0
  case pos =>
    obtain ⟨hne, hdig, hv⟩ := natDecimal_spec i.natAbs
    have hint : intDecimal i = '-' :: natDecimal i.natAbs := by
      simp [intDecimal, hneg]
    obtain ⟨htake, hdrop⟩ := takeWhile_dropWhile_append
      (p := fun c => c.isDigit) (natDecimal i.natAbs) rest hdig
      (fun c hc => (hrest c hc).1)
    rw [hint, List.cons_append]
    simp only [parseIntPrefix, List.head?_cons, Option.map, Option.getD,
      show (('-' : Char) == '-') = true from rfl, eq_self_iff_true, if_true,
      List.drop_succ_cons, List.drop_zero, htake, hdrop]
    rw [if_pos hne, hv]
    have : -(i.natAbs : Int) = i := by omega
    rw [this]
  case neg =>
    obtain ⟨hne, hdig, hv⟩ := natDecimal_spec i.toNat
    have hint : intDecimal i = natDecimal i.toNat := by
      simp [intDecimal, hneg]
    obtain ⟨d, ds, hds⟩ := List.exists_cons_of_ne_nil hne
    have hd_digit : d.isDigit = true := hdig d (by rw [hds]; exact List.mem_cons_self d ds)
    have hd_ne : (d == '-') = false := by
      simp only [beq_eq_false_iff_ne, ne_eq]
      intro he
      rw [he] at hd_digit
      exact absurd hd_digit (by decide)
    have hdig' : ∀ c ∈ d :: ds, c.isDigit = true := by rw [← hds]; exact hdig
    obtain ⟨htake, hdrop⟩ := takeWhile_dropWhile_append
      (p := fun c => c.isDigit) (d :: ds) rest hdig'
      (fun c hc => (hrest c hc).1)
    simp only [List.cons_append] at htake hdrop
    have hval : digitsToNat (d :: ds) = i.toNat := by rw [← hds]; exact hv
    have hnonempty : d :: ds ≠ [] := by simp
    rw [hint, hds, List.cons_append]
    simp only [parseIntPrefix, List.head?_cons, Option.map, Option.getD, hd_ne,
      Bool.false_eq_true, if_false, htake, hdrop]
    rw [if_pos hnonempty, hval]
    have : (i.toNat : Int) = i := by omega
    rw [this]

/-- `parseSlugTail` recovers a quote-free slug body. -/
theorem parseSlugTail_slug (slug : String)
    (hq : ∀ c ∈ slug.data, c ≠ dquoteChar) :
    parseSlugTail (slug.data ++ "\"\x7d".data) = some slug := by
  obtain ⟨htake, hdrop⟩ := takeWhile_dropWhile_append
    (p := fun c => !(c == dquoteChar)) slug.data ("\"\x7d".data)
    (by
      intro x hx
      simpa using hq x hx)
    (by
      intro c hc
      have : c = dquoteChar := by
        have h2 : ("\"\x7d" : String).data = [dquoteChar, Char.ofNat 125] := by decide
        rw [h2] at hc
        simpa using hc.symm
      rw [this]
      simp)
  simp only [parseSlugTail, htake, hdrop, eq_self_iff_true, if_true, string_mk_data]

/-- The composite-id serialisation round-trips through the restricted
`json.loads` model, for slugs free of the double-quote character. -/
theorem json_loads_dumps_id_slug (i : Int) (slug : String)
    (hq : ∀ c ∈ slug.data, c ≠ dquoteChar) :
    json_loads_id_slug (json_dumps_id_slug i slug) = some (i, slug) := by
  have hmk : (String.mk (intDecimal i)).data = intDecimal i := rfl
  have hdata : (json_dumps_id_slug i slug).data =
      "\x7b\"id\": ".data ++ (intDecimal i ++
        (", \"slug\": \"".data ++ (slug.data ++ "\"\x7d".data))) := by
    show ("\x7b\"id\": " ++ String.mk (intDecimal i) ++ ", \"slug\": \"" ++ slug ++
      "\"\x7d").data = _
    rw [String.data_append, String.data_append, String.data_append, String.data_append,
      hmk, List.append_assoc, List.append_assoc, List.append_assoc]
  have hmid : ∀ c, (", \"slug\": \"".data ++ (slug.data ++ "\"\x7d".data)).head? = some c →
      c.isDigit = false ∧ c ≠ '-' := by
    intro c hc
    have : c = ',' := by
      rw [show (", \"slug\": \"".data) = ',' :: " \"slug\": \"".data from rfl,
        List.cons_append, List.head?_cons] at hc
      exact (Option.some_inj.mp hc).symm
    rw [this]
    exact ⟨by decide, by decide⟩
  rw [json_loads_id_slug, hdata, expectPrefix_append, Option.some_bind,
    parseIntPrefix_intDecimal i _ hmid, Option.some_bind, expectPrefix_append,
    Option.some_bind, parseSlugTail_slug slug hq]
  rfl

/-- `pySplit` on a canonical `/manga/{slug}` anchor, for slugs without a
slash. -/
theorem pySplit_manga_slug (slug : String) (h : '/' ∉ slug.data) :
    pySplit "/manga/" ("/manga/" ++ slug) = ["", slug] := by
  have h7 : "/manga/".data = '/' :: "manga/".data := by decide
  have hdata : ("/manga/" ++ slug).data = "/manga/".data ++ slug.data := by
    rw [String.data_append]
  rw [pySplit, hdata]
  have hlen : ("/manga/".data ++ slug.data).length = (6 + slug.data.length) + 1 := by
    rw [List.length_append, show ("/manga/".data).length = 7 from by decide]
    omega
  rw [hlen]
  have hcons : "/manga/".data ++ slug.data = '/' :: ("manga/".data ++ slug.data) := by
    rw [h7, List.cons_append]
  rw [hcons]
  have hpre : ("/manga/".data).isPrefixOf ('/' :: ("manga/".data ++ slug.data)) = true := by
    rw [← hcons]
    exact isPrefixOf_append_self _ _
  rw [splitSeqAux, if_pos hpre]
  have hdrop : ('/' :: ("manga/".data ++ slug.data)).drop ("/manga/".data).length =
      slug.data := by
    rw [← hcons, List.drop_left]
  rw [hdrop, h7]
  rw [splitSeqAux_no_sep '/' ("manga/".data) slug.data (6 + slug.data.length) []
    (by omega) h]
  simp only [List.reverse_nil, List.nil_append, List.map_cons, List.map_nil]

/-- The slug extracted from a canonical `/manga/{slug}` anchor is the
slug itself. -/
theorem manga_name_of_slug_href (slug : String) (h : '/' ∉ slug.data) :
    manga_name_of_href ("/manga/" ++ slug) = slug := by
  simp only [manga_name_of_href, pySplit_manga_slug slug h]
  have hlast : (["", slug].getLastD "") = slug := rfl
  rw [hlast, splitChar_no_sep '/' slug.data h]
  simp only [List.headD]

/-- `urljoin` against the path-less base resolves a root-relative
`/manga/{slug}` reference by concatenation. -/
theorem urljoin_mangahub_manga_slug (slug : String) :
    urljoin_mangahub ("/manga/" ++ slug) = "https://mangahub.us/manga/" ++ slug := by
  have h7 : "/manga/".data = '/' :: "manga/".data := by decide
  have hd : ("/manga/" ++ slug).data = '/' :: ("manga/".data ++ slug.data) := by
    rw [String.data_append, h7, List.cons_append]
  have h1 : strStartsWith ("/manga/" ++ slug) "http" = false := by
    rw [strStartsWith, hd]
    simp [List.isPrefixOf]
  have h2 : strStartsWith ("/manga/" ++ slug) "//" = false := by
    rw [strStartsWith, hd]
    rw [show ("manga/".data ++ slug.data) = 'm' :: ("anga/".data ++ slug.data) from by
      rw [show "manga/".data = 'm' :: "anga/".data from by decide, List.cons_append]]
    simp [List.isPrefixOf]
  have h3 : strStartsWith ("/manga/" ++ slug) "/" = true := by
    rw [strStartsWith, hd]
    simp [List.isPrefixOf]
  simp only [urljoin_mangahub, h1, h2, h3, Bool.false_eq_true, if_false, if_true]
  apply string_data_eq
  simp only [String.data_append]
  rw [← List.append_assoc]
  congr 1

/-- Full specification of the insertion-ordered grouping: every entry of
`groupPairs l` has a key from `l`, a bucket that is exactly the values of
that key in input order, and a non-empty bucket.  The induction is on a
length bound, following the filter-based recursion of `groupPairs`. -/
theorem groupPairs_spec_bounded : ∀ (N : Nat) (l : List (Nat × String)), l.length ≤ N →
    ∀ (k : Nat) (us : List String), (k, us) ∈ groupPairs l →
      k ∈ l.map Prod.fst ∧
      us = (l.filter (fun q => q.1 = k)).map Prod.snd ∧ us ≠ [] := by
  intro N
  induction N with
  | zero =>
    intro l hl k us hmem
    have : l = [] := List.length_eq_zero.mp (Nat.le_zero.mp hl)
    subst this
    simp [groupPairs] at hmem
  | succ N ihN =>
    intro l hl k us hmem
    cases l with
    | nil => simp [groupPairs] at hmem
    | cons p rest =>
      obtain ⟨n, u⟩ := p
      rw [groupPairs] at hmem
      rcases List.mem_cons.mp hmem with heq | htail
      · injection heq with hk hus
        subst hk
        refine ⟨by simp, ?_, by rw [hus]; simp⟩
        rw [hus, List.filter_cons]
        simp
      · have hlen : (rest.filter (fun p => p.1 ≠ n)).length ≤ N := by
          have := List.length_filter_le (fun p => p.1 ≠ n) rest
          simp only [List.length_cons] at hl
          omega
        obtain ⟨hkmem, hus, hne⟩ := ihN _ hlen k us htail
        have hkn : k ≠ n := by
          rcases List.mem_map.mp hkmem with ⟨q, hqmem, hqk⟩
          have hq2 := (List.mem_filter.mp hqmem).2
          simp only [ne_eq, decide_not, Bool.not_eq_eq_eq_not, Bool.not_true,
            decide_eq_false_iff_not] at hq2
          rw [← hqk]
          exact hq2
        refine ⟨?_, ?_, hne⟩
        · rcases List.mem_map.mp hkmem with ⟨q, hq, hqk⟩
          exact List.mem_map.mpr
            ⟨q, List.mem_cons_of_mem (n, u) (List.mem_filter.mp hq).1, hqk⟩
        · rw [hus, List.filter_filter, List.filter_cons]
          have hhead : (decide ((n, u).1 = k)) = false := by
            simp [Ne.symm hkn]
          rw [hhead]
          simp only [Bool.false_eq_true, if_false]
          congr 1
          apply List.filter_congr
          intro a _
          by_cases ha : a.1 = k
          · simp [ha, hkn]
          · simp [ha]

/-- `groupPairs` membership spec at the natural length bound. -/
theorem groupPairs_spec (l : List (Nat × String)) (k : Nat) (us : List String)
    (h : (k, us) ∈ groupPairs l) :
    k ∈ l.map Prod.fst ∧
    us = (l.filter (fun q => q.1 = k)).map Prod.snd ∧ us ≠ [] :=
  groupPairs_spec_bounded l.length l (Nat.le_refl _) k us h

/-- The keys of `groupPairs` are distinct (dict keys). -/
theorem groupPairs_keys_nodup_bounded : ∀ (N : Nat) (l : List (Nat × String)),
    l.length ≤ N → ((groupPairs l).map Prod.fst).Nodup := by
  intro N
  induction N with
  | zero =>
    intro l hl
    have : l = [] := List.length_eq_zero.mp (Nat.le_zero.mp hl)
    subst this
    simp [groupPairs]
  | succ N ihN =>
    intro l hl
    cases l with
    | nil => simp [groupPairs]
    | cons p rest =>
      obtain ⟨n, u⟩ := p
      rw [groupPairs]
      simp only [List.map_cons, List.nodup_cons]
      constructor
      · intro hmem
        rcases List.mem_map.mp hmem with ⟨⟨k, us⟩, hk, hkeq⟩
        obtain ⟨hkmem, _, _⟩ := groupPairs_spec _ _ _ hk
        rcases List.mem_map.mp hkmem with ⟨q, hqmem, hqk⟩
        have hq2 := (List.mem_filter.mp hqmem).2
        simp only [ne_eq, decide_not, Bool.not_eq_eq_eq_not, Bool.not_true,
          decide_eq_false_iff_not] at hq2
        exact hq2 (hqk.trans hkeq)
      · apply ihN
        have := List.length_filter_le (fun p => p.1 ≠ n) rest
        simp only [List.length_cons] at hl
        omega

/-- The projections of `mkFoxChapter`. -/
theorem mkFoxChapter_proj (manga_name : String) (n : Nat) (urls : List String) :
    (mkFoxChapter manga_name n urls).chapter_num = n ∧
    (mkFoxChapter manga_name n urls).url = (List.insertionSort urlLe urls).headD "" ∧
    (mkFoxChapter manga_name n urls).fallback_urls = (List.insertionSort urlLe urls).tail :=
  ⟨rfl, rfl, rfl⟩

/-- The relevance score never exceeds the exact-match value. -/
theorem relevance_le_100 (q t s : String) : relevance_score q t s ≤ 100 := by
  unfold relevance_score
  split_ifs <;> omega

/-- The relevance score is 100 exactly for an exact title match. -/
theorem relevance_eq_100_iff (q t s : String) : relevance_score q t s = 100 ↔ t = q := by
  unfold relevance_score
  split_ifs with h1 h2 h3 h4 <;> simp_all

/-- Every scored search entry has a positive score, a score of at most
100, and score 100 exactly when its (lower-cased) title equals the
(lower-cased) query. -/
theorem fox_scored_mem (query : String) (links : List FoxSearchCandidate)
    (e : FoxSearchResult) (he : e ∈ fox_scored query links) :
    0 < e.relevance_score ∧ e.relevance_score ≤ 100 ∧
    (e.relevance_score = 100 ↔ pyLower e.title = pyLower query) := by
  rcases List.mem_filterMap.mp he with ⟨cand, _, hf⟩
  simp only [fox_score_candidate] at hf
  repeat' split at hf
  all_goals try exact Option.noConfusion hf
  all_goals injection hf with hf
  all_goals subst hf
  all_goals rename_i hpos
  all_goals exact ⟨hpos, relevance_le_100 _ _ _, relevance_eq_100_iff _ _ _⟩

/-- One ordered insertion commutes with filtering at a fixed score. -/
theorem orderedInsert_filter_score (s : Nat) (x : FoxSearchResult) :
    ∀ m : List FoxSearchResult,
      (List.orderedInsert scoreGe x m).filter (fun e => e.relevance_score = s) =
        if x.relevance_score = s then
          x :: m.filter (fun e => e.relevance_score = s)
        else m.filter (fun e => e.relevance_score = s) := by
  intro m
  induction m with
  | nil =>
    by_cases hx : x.relevance_score = s <;>
      simp [List.orderedInsert, List.filter_cons, hx]
  | cons y ys ih =>
    rw [List.orderedInsert]
    by_cases hxy : scoreGe x y
    · rw [if_pos hxy]
      by_cases hx : x.relevance_score = s <;>
        by_cases hy : y.relevance_score = s <;>
        simp [List.filter_cons, hx, hy]
    · rw [if_neg hxy]
      have hxy' : ¬ (y.relevance_score ≤ x.relevance_score) := hxy
      by_cases hy : y.relevance_score = s
      · by_cases hx : x.relevance_score = s
        · exfalso
          omega
        · simp [List.filter_cons, hy, hx, ih]
      · by_cases hx : x.relevance_score = s <;>
          simp [List.filter_cons, hy, hx, ih]

/-- Python's stable sort keeps equal-score entries in their original
relative order: filtering the sorted list at any fixed score gives the
same list as filtering the unsorted input. -/
theorem insertionSort_filter_score (s : Nat) :
    ∀ l : List FoxSearchResult,
      (List.insertionSort scoreGe l).filter (fun e => e.relevance_score = s) =
        l.filter (fun e => e.relevance_score = s) := by
  intro l
  induction l with
  | nil => rfl
  | cons x xs ih =>
    rw [List.insertionSort, orderedInsert_filter_score, ih, List.filter_cons]
    by_cases hx : x.relevance_score = s <;> simp [hx]

/-- `applyLimit` returns a sublist. -/
theorem applyLimit_sublist (lim : Option Nat) (l : List FoxSearchResult) :
    (applyLimit lim l).Sublist l := by
  cases lim with
  | none => exact List.Sublist.refl l
  | some n =>
    simp only [applyLimit]
    by_cases hn : n = 0
    · simp [hn]
    · simp only [hn, if_false]
      exact List.take_sublist n l

/-- Every survivor of the seen-set deduplication is an input
candidate. -/
theorem dedupByHref_subset_bounded : ∀ (N : Nat) (l : List FoxSearchCandidate),
    l.length ≤ N → ∀ x ∈ dedupByHref l, x ∈ l := by
  intro N
  induction N with
  | zero =>
    intro l hl x hx
    have : l = [] := List.length_eq_zero.mp (Nat.le_zero.mp hl)
    subst this
    simpa [dedupByHref] using hx
  | succ N ihN =>
    intro l hl x hx
    cases l with
    | nil => simpa [dedupByHref] using hx
    | cons c rest =>
      rw [dedupByHref] at hx
      rcases List.mem_cons.mp hx with heq | htail
      · exact heq ▸ List.mem_cons_self c rest
      · have hlen : (rest.filter (fun y => y.href ≠ c.href)).length ≤ N := by
          have := List.length_filter_le (fun y => y.href ≠ c.href) rest
          simp only [List.length_cons] at hl
          omega
        have := ihN _ hlen x htail
        exact List.mem_cons_of_mem c (List.mem_filter.mp this).1

/-- The deduplicated candidates have pairwise-distinct hrefs. -/
theorem dedupByHref_hrefs_nodup_bounded : ∀ (N : Nat) (l : List FoxSearchCandidate),
    l.length ≤ N → ((dedupByHref l).map (fun c => c.href)).Nodup := by
  intro N
  induction N with
  | zero =>
    intro l hl
    have : l = [] := List.length_eq_zero.mp (Nat.le_zero.mp hl)
    subst this
    simp [dedupByHref]
  | succ N ihN =>
    intro l hl
    cases l with
    | nil => simp [dedupByHref]
    | cons c rest =>
      rw [dedupByHref]
      simp only [List.map_cons, List.nodup_cons]
      have hlen : (rest.filter (fun y => y.href ≠ c.href)).length ≤ N := by
        have := List.length_filter_le (fun y => y.href ≠ c.href) rest
        simp only [List.length_cons] at hl
        omega
      constructor
      · intro hmem
        rcases List.mem_map.mp hmem with ⟨y, hy, hyeq⟩
        have hyin := dedupByHref_subset_bounded N _ hlen y hy
        have := (List.mem_filter.mp hyin).2
        simp only [ne_eq, decide_not, Bool.not_eq_eq_eq_not, Bool.not_true,
          decide_eq_false_iff_not] at this
        exact this hyeq
      · exact ihN _ hlen

/-! # Claim theorems -/

set_option maxRecDepth 100000 in
/-- Claim C1: modeling the existence probe as an oracle in which the HEAD
request for page n succeeds exactly when n ≤ K, the page-count resolver
`_find_page_count_with_binary_search` returns exactly K for every K in
[1, 1000], and for K = 0 it returns 0. -/
theorem c1_page_count_resolver_exact :
    (∀ K : Nat, 1 ≤ K → K ≤ 1000 →
      find_page_count_with_binary_search (cdnOracle K) = K) ∧
    find_page_count_with_binary_search (cdnOracle 0) = 0 := by
  have haux : ∀ K : Nat, K < 1001 → 1 ≤ K →
      find_page_count_with_binary_search (cdnOracle K) = K := by decide
  exact ⟨fun K h1 h2 => haux K (by omega) h1, by decide⟩

/-- Witness for C1, at K = 23. -/
theorem c1_page_count_resolver_exact_witness :
    1 ≤ 23 ∧ 23 ≤ 1000 ∧ find_page_count_with_binary_search (cdnOracle 23) = 23 :=
  ⟨by decide, by decide, c1_page_count_resolver_exact.1 23 (by decide) (by decide)⟩

/-- Claim C2: the page count `mangaFoxConnector.get_pages` uses to
generate page URLs is always in [1, 500]; when HTML extraction and
binary search both yield a count ≤ 0 the hard-coded default 50 is used,
and a discovered count greater than 500 is clamped to 500.  The URL list
generated has exactly that many entries. -/
theorem c2_get_pages_guard_rails :
    ∀ html_count bsearch_count : Int,
      (1 ≤ get_pages_total html_count bsearch_count ∧
        get_pages_total html_count bsearch_count ≤ 500) ∧
      (html_count ≤ 0 → bsearch_count ≤ 0 →
        get_pages_total html_count bsearch_count = 50) ∧
      (500 < (if html_count = 0 then bsearch_count else html_count) →
        get_pages_total html_count bsearch_count = 500) ∧
      ∀ cdn manga_name chapter_num : String,
        (get_pages_urls cdn manga_name chapter_num
            (get_pages_total html_count bsearch_count)).length =
          (get_pages_total html_count bsearch_count).toNat := by
  intro h b
  refine ⟨?_, ?_, ?_, ?_⟩
  · simp only [get_pages_total]
    split_ifs <;> omega
  · intro h1 h2
    simp only [get_pages_total]
    split_ifs <;> omega
  · intro h1
    simp only [get_pages_total]
    split_ifs at h1 ⊢ <;> omega
  · intro cdn manga_name chapter_num
    simp [get_pages_urls]

/-- Witness for C2, at HTML count 0 and binary-search count 0 (both
discovery strategies failed): the conservative default 50 is used and
lies in [1, 500]. -/
theorem c2_get_pages_guard_rails_witness :
    get_pages_total 0 0 = 50 ∧ 1 ≤ get_pages_total 0 0 ∧ get_pages_total 0 0 ≤ 500 :=
  ⟨(c2_get_pages_guard_rails 0 0).2.1 (by decide) (by decide),
    (c2_get_pages_guard_rails 0 0).1.1, (c2_get_pages_guard_rails 0 0).1.2⟩

/-- Claim C3 counterexample: packed code `"0"` with the dictionary
`["a", "", …, "", "X"]` (index 0 holds `"a"`, index 10 holds `"X"`).
The claim predicts the unpacked code `"a"` (each non-empty index's
placeholder substituted into the packed code, the introduced text never
modified by another index's substitution), but the sequential loop first
rewrites `"0"` to `"a"` at index 0 and then rewrites that introduced
`"a"` to `"X"` at index 10, so the unpacked code is `"X"`. -/
theorem c3_counterexample :
    matchPackerArgs "\x7d(\x270\x27,36,11,\x27a||||||||||X\x27" =
      some ("0", 36, 11, "a||||||||||X") ∧
    unpackLoop "0" (pySplitPipe "a||||||||||X") = "X" ∧
    ("X" : String) ≠ "a" :=
  ⟨by decide, by decide, by decide⟩

/-- Claim C3 (amended): after the four packer arguments are matched, the
unpacked code equals the packed code transformed by applying, for each
dictionary index i in ascending order whose entry is non-empty, a
whole-word substitution of i's base-36 placeholder by that entry, where
each pass operates on the result of the previous passes (so text
introduced by one index's substitution can be modified by a later
index's); a pass alters nothing in a string that does not contain its
placeholder character. -/
theorem c3_sequential_substitution :
    ∀ (s p : String) (a c : Nat) (k : String),
      matchPackerArgs s = some (p, a, c, k) →
      unpackLoop p (pySplitPipe k) = sequentialSubSpec p 0 (pySplitPipe k) ∧
      ∀ (i : Nat) (e r : String), placeholderChar i ∉ r.data →
        reSubWholeWord (placeholderChar i) e r = r := by
  intro s p a c k _
  constructor
  · simpa [unpackLoop, List.enum] using
      unpackLoop_enumFrom_eq_seq (pySplitPipe k) 0 p
  · intro i e r hr
    simp [reSubWholeWord, subWordCharAux_not_mem (placeholderChar i) e.data r.data none hr]

/-- Witness for C3 (amended), at the concrete dictionary of the
counterexample input. -/
theorem c3_sequential_substitution_witness :
    unpackLoop "0" (pySplitPipe "a||||||||||X") =
      sequentialSubSpec "0" 0 (pySplitPipe "a||||||||||X") :=
  (c3_sequential_substitution "\x7d(\x270\x27,36,11,\x27a||||||||||X\x27"
    "0" 36 11 "a||||||||||X" (by decide)).1

/-- Claim C4 counterexample: on an input where the fixed-shape packer
pattern does not match, `_unpack_fanfox_javascript` returns Python
`None` (line 697), not an empty URL list. -/
theorem c4_counterexample :
    unpack_fanfox_javascript "no packer here" = none ∧
    (none : Option (List String)) ≠ some [] :=
  ⟨by decide, by decide⟩

/-- Claim C4 (amended): when the fixed-shape packer pattern does not
match, the inner `_unpack_fanfox_javascript` returns `None`; its wrapper
`_extract_image_urls_from_packed_js` — the routine the chapter
downloader actually calls — converts that to an empty URL list (and does
not raise), so the caller can fall back to its alternate extraction
strategies. -/
theorem c4_no_match_behaviour :
    ∀ s : String, matchPackerArgs s = none →
      unpack_fanfox_javascript s = none ∧
      extract_image_urls_from_packed_js s = [] := by
  intro s h
  have h1 : unpack_fanfox_javascript s = none := by
    simp [unpack_fanfox_javascript, h]
  exact ⟨h1, by simp [extract_image_urls_from_packed_js, h1]⟩

/-- Witness for C4 (amended), at a concrete non-matching input. -/
theorem c4_no_match_behaviour_witness :
    unpack_fanfox_javascript "abc" = none ∧
    extract_image_urls_from_packed_js "abc" = [] :=
  c4_no_match_behaviour "abc" (by decide)

/-- Claim C5: when a packed-script API response yields at least two
extracted image URLs, the downloader keeps both of the first two URLs on
the very first API call of a chapter (loop index i = 0) and keeps only
the second (current-page) URL on every subsequent call; with fewer than
two URLs it keeps whatever was extracted. -/
theorem c5_selection_policy :
    ∀ (i : Nat) (urls : List String),
      (i = 0 → 2 ≤ urls.length →
        select_api_urls i urls = [urls.getD 0 "", urls.getD 1 ""]) ∧
      (i ≠ 0 → 2 ≤ urls.length → select_api_urls i urls = [urls.getD 1 ""]) ∧
      (urls.length < 2 → select_api_urls i urls = urls) := by
  intro i urls
  refine ⟨?_, ?_, ?_⟩
  · intro hi hlen
    subst hi
    match urls, hlen with
    | u0 :: u1 :: rest, _ => simp [select_api_urls]
  · intro hi hlen
    simp only [select_api_urls]
    rw [if_neg (by tauto), if_pos hlen]
  · intro hlen
    simp only [select_api_urls]
    rw [if_neg (by omega), if_neg (by omega)]

/-- Witness for C5, at the first API call with two extracted URLs. -/
theorem c5_selection_policy_witness :
    select_api_urls 0 ["https://cdn/000.jpg", "https://cdn/001.jpg"] =
      ["https://cdn/000.jpg", "https://cdn/001.jpg"] :=
  (c5_selection_policy 0 ["https://cdn/000.jpg", "https://cdn/001.jpg"]).1 rfl (by decide)

/-- Claim C10: on the HTML-parsing fallback path of `_fetch_chapters`,
the returned list is always exactly one synthetic Chapter 1 entry for
the given URL — the assignment just before the return unconditionally
overwrites whatever chapter list the parsing strategies collected (the
synthetic entry additionally carries the defensive `id = "1"` and
`manga_id = "1"` fields of lines 454-460). -/
theorem c10_fallback_overwrite :
    ∀ (parsed : List DChapter) (url : String),
      fetch_chapters_fallback parsed url =
        [{ number := "1", title := "Chapter 1", url := url,
           id := some "1", manga_id := some "1" }] := by
  intro parsed url
  rfl

/-- Claim C6 counterexample: `OmegaScansConnector.get_chapters` (via
`_get_chapters_v1`) returns chapters in API payload order, with no
numeric sort, no duplicate collapsing and no fallback URLs.  With a
payload listing Chapter 2 first and Chapter 1 twice, the returned
sequence is "Chapter 2", "Chapter 1", "Chapter 1": not non-decreasing by
numeric chapter key, and two entries share the same chapter key. -/
theorem c6_counterexample :
    (omega_get_chapters
        (omega_get_chapters_v1 (json_dumps_id_slug 5 "some-series")
          [⟨1, [⟨11, "chapter-2", "Chapter 2", none⟩,
                ⟨12, "chapter-1", "Chapter 1", none⟩,
                ⟨13, "chapter-1", "Chapter 1", none⟩]⟩])
        []).map (fun ch => ch.title) = ["Chapter 2", "Chapter 1", "Chapter 1"] := by
  decide

/-- Claim C7 counterexample: `OmegaScansConnector.search_manga` returns
the API's results in API order, with no relevance scoring.  With an API
payload listing "Foo Bar" before "Foo" for the query "Foo", the entry
whose title equals the query case-insensitively comes second, after an
entry whose title merely starts with the query. -/
theorem c7_counterexample :
    (omega_search_manga "Foo"
        [⟨1, "foo-bar", "Foo Bar", false⟩, ⟨2, "foo", "Foo", false⟩]
        [] none).map (fun e => e.title) = ["Foo Bar", "Foo"] ∧
    pyLower "Foo" = pyLower "Foo" ∧ pyLower "Foo Bar" ≠ pyLower "Foo" := by
  refine ⟨by decide, rfl, by decide⟩

/-- Claim C8: the paywall branch of `OmegaScansConnector.get_pages`
raises a dedicated exception (line 852), but the function's own blanket
`except` (lines 898-900) swallows it and returns `[]` — exactly what a
chapter with no images returns — so the caller cannot tell "locked"
apart from "not found".  The internal body does raise the distinct
signal, supporting the spec's stated intent. -/
theorem c8_paywall_swallowed :
    omega_get_pages { paywall := true, chapter := none, data_images := none } = [] ∧
    omega_get_pages { paywall := false, chapter := none, data_images := none } = [] ∧
    omega_get_pages_body { paywall := true, chapter := none, data_images := none } =
      Except.error "Chapter is paywalled. Please login." ∧
    omega_get_pages_body { paywall := false, chapter := none, data_images := none } =
      Except.ok [] := by
  refine ⟨rfl, rfl, rfl, rfl⟩

/-- Claim C9: a catalog entry's `id` round-trips on its own connector
without any catalog re-search.  For OmegaScans, the serialised JSON
composite id of an entry parses back to exactly the source record's
(id, slug), and `_get_chapters_v1`'s single request is the series
endpoint for that slug — never the search endpoint.  For mangaFox, the
slug id of an entry built from a canonical `/manga/{slug}` anchor is the
slug itself, and `get_chapters`'s request URL from the `id` field alone
is the same canonical series URL the anchor resolves to. -/
theorem c9_roundtrip_id :
    (∀ m : OSRawManga, (∀ c ∈ m.series_slug.data, c ≠ dquoteChar) →
      json_loads_id_slug (omega_entry_of_raw m).id = some (m.id, m.series_slug) ∧
      omega_chapters_v1_request (omega_entry_of_raw m).id =
        some (OmegaRequest.seriesEndpoint m.series_slug) ∧
      ∀ q : String, OmegaRequest.seriesEndpoint m.series_slug ≠ OmegaRequest.searchQuery q) ∧
    (∀ slug : String, slug ≠ "" → '/' ∉ slug.data →
      manga_name_of_href ("/manga/" ++ slug) = slug ∧
      fox_get_chapters_request_url none slug = urljoin_mangahub ("/manga/" ++ slug) ∧
      fox_get_chapters_request_url none slug = "https://mangahub.us/manga/" ++ slug) := by
  constructor
  · intro m hq
    have hload : json_loads_id_slug (omega_entry_of_raw m).id = some (m.id, m.series_slug) := by
      simp only [omega_entry_of_raw]
      exact json_loads_dumps_id_slug m.id m.series_slug hq
    refine ⟨hload, ?_, ?_⟩
    · simp [omega_chapters_v1_request, hload]
    · intro q h
      exact OmegaRequest.noConfusion h
  · intro slug _ hslash
    refine ⟨manga_name_of_slug_href slug hslash, rfl, ?_⟩
    simp only [fox_get_chapters_request_url]
    exact urljoin_mangahub_manga_slug slug

/-- Witness for C9, at a concrete OmegaScans record and a concrete
mangaFox slug. -/
theorem c9_roundtrip_id_witness :
    (json_loads_id_slug (omega_entry_of_raw ⟨7, "solo-max", "Solo Max", false⟩).id =
      some (7, "solo-max") ∧
     omega_chapters_v1_request (omega_entry_of_raw ⟨7, "solo-max", "Solo Max", false⟩).id =
      some (OmegaRequest.seriesEndpoint "solo-max")) ∧
    (manga_name_of_href ("/manga/" ++ "one-piece") = "one-piece" ∧
     fox_get_chapters_request_url none "one-piece" = "https://mangahub.us/manga/" ++ "one-piece") := by
  have h1 := c9_roundtrip_id.1 ⟨7, "solo-max", "Solo Max", false⟩ (by decide)
  have h2 := c9_roundtrip_id.2 "one-piece" (by decide) (by decide)
  exact ⟨⟨h1.1, h1.2.1⟩, ⟨h2.1, h2.2.2⟩⟩

/-- Claim C6 (amended): the invariants hold for
`mangaFoxConnector.get_chapters`: the returned sequence is strictly
increasing by numeric chapter key (so non-decreasing with no two entries
sharing a key), and for each entry the primary URL is least in the
(length, code-point) order among — hence no longer than — every stored
fallback URL, with primary and fallbacks together being exactly the raw
links that resolved to that chapter number.  (`OmegaScansConnector`
returns API order with no sort, dedup or fallbacks — see the
counterexample.) -/
theorem c6_mangafox_chapter_invariants :
    ∀ (manga_name : String) (hrefs : List String),
      (fox_get_chapters manga_name hrefs).Pairwise
        (fun a b => a.chapter_num < b.chapter_num) ∧
      (∀ ch ∈ fox_get_chapters manga_name hrefs, ∀ u ∈ ch.fallback_urls,
        urlLe ch.url u ∧ ch.url.length ≤ u.length) ∧
      (∀ ch ∈ fox_get_chapters manga_name hrefs,
        (ch.url :: ch.fallback_urls).Perm
          (((foxChapterPairs manga_name hrefs).filter
            (fun p => p.1 = ch.chapter_num)).map Prod.snd)) := by
  intro manga_name hrefs
  have hdef : fox_get_chapters manga_name hrefs =
      List.insertionSort chapLe ((groupPairs (foxChapterPairs manga_name hrefs)).map
        (fun g => mkFoxChapter manga_name g.1 g.2)) := rfl
  have hmem_fact : ∀ ch ∈ fox_get_chapters manga_name hrefs,
      ∃ us, (ch.chapter_num, us) ∈ groupPairs (foxChapterPairs manga_name hrefs) ∧
        ch = mkFoxChapter manga_name ch.chapter_num us := by
    intro ch hch
    rw [hdef, List.mem_insertionSort] at hch
    rcases List.mem_map.mp hch with ⟨g, hg, hmk⟩
    have hnum : ch.chapter_num = g.1 := by
      rw [← hmk]
      rfl
    refine ⟨g.2, ?_, ?_⟩
    · rw [hnum]
      simpa using hg
    · rw [hnum, ← hmk]
  refine ⟨?_, ?_, ?_⟩
  · have hsorted : List.Sorted chapLe (fox_get_chapters manga_name hrefs) := by
      rw [hdef]
      exact List.sorted_insertionSort chapLe _
    have hperm : (fox_get_chapters manga_name hrefs).Perm
        ((groupPairs (foxChapterPairs manga_name hrefs)).map
          (fun g => mkFoxChapter manga_name g.1 g.2)) := by
      rw [hdef]
      exact List.perm_insertionSort chapLe _
    have hkeys : (((groupPairs (foxChapterPairs manga_name hrefs)).map
        (fun g => mkFoxChapter manga_name g.1 g.2)).map
          (fun c => c.chapter_num)).Nodup := by
      rw [List.map_map]
      exact groupPairs_keys_nodup_bounded _ _ (Nat.le_refl _)
    have hkeys' : ((fox_get_chapters manga_name hrefs).map
        (fun c => c.chapter_num)).Nodup := by
      rw [(hperm.map (fun c => c.chapter_num)).nodup_iff]
      exact hkeys
    have hne : (fox_get_chapters manga_name hrefs).Pairwise
        (fun a b => a.chapter_num ≠ b.chapter_num) :=
      List.pairwise_map.mp hkeys'
    exact (hsorted.and hne).imp (fun h => Nat.lt_of_le_of_ne h.1 h.2)
  · intro ch hch u hu
    obtain ⟨us, hgmem, hcheq⟩ := hmem_fact ch hch
    obtain ⟨_, _, hne⟩ := groupPairs_spec _ _ _ hgmem
    have hlen : (List.insertionSort urlLe us).length = us.length :=
      (List.perm_insertionSort urlLe us).length_eq
    have hsne : List.insertionSort urlLe us ≠ [] := by
      intro h0
      rw [h0] at hlen
      exact hne (List.length_eq_zero.mp hlen.symm)
    obtain ⟨u0, rest, hsu⟩ := List.exists_cons_of_ne_nil hsne
    have hsorted_u : List.Sorted urlLe (u0 :: rest) := by
      rw [← hsu]
      exact List.sorted_insertionSort urlLe us
    have hurl : ch.url = u0 := by
      rw [hcheq]
      simp [mkFoxChapter, hsu]
    have hfb : ch.fallback_urls = rest := by
      rw [hcheq]
      simp [mkFoxChapter, hsu]
    rw [hurl]
    rw [hfb] at hu
    have hrel := List.rel_of_sorted_cons hsorted_u u hu
    exact ⟨hrel, urlLe_length hrel⟩
  · intro ch hch
    obtain ⟨us, hgmem, hcheq⟩ := hmem_fact ch hch
    obtain ⟨_, hus, hne⟩ := groupPairs_spec _ _ _ hgmem
    have hlen : (List.insertionSort urlLe us).length = us.length :=
      (List.perm_insertionSort urlLe us).length_eq
    have hsne : List.insertionSort urlLe us ≠ [] := by
      intro h0
      rw [h0] at hlen
      exact hne (List.length_eq_zero.mp hlen.symm)
    obtain ⟨u0, rest, hsu⟩ := List.exists_cons_of_ne_nil hsne
    have hurl : ch.url = u0 := by
      rw [hcheq]
      simp [mkFoxChapter, hsu]
    have hfb : ch.fallback_urls = rest := by
      rw [hcheq]
      simp [mkFoxChapter, hsu]
    rw [hurl, hfb, ← hsu, ← hus]
    exact List.perm_insertionSort urlLe us

/-- Claim C7 (amended): the search-result invariants hold for
`mangaFoxConnector.search_manga`: results are ordered by non-increasing
relevance score; every result has positive relevance (zero-relevance
candidates are excluded); every exact-title match precedes every entry
whose title merely starts with or contains the query; entries of equal
relevance keep their insertion order (the sorted-and-limited list
filtered at any score is a sublist of the unsorted scored list, and with
no limit it is that filter exactly); and candidates are deduplicated by
anchor href before scoring.  (`OmegaScansConnector.search_manga` returns
API order with no scoring — see the counterexample.) -/
theorem c7_mangafox_search_invariants :
    ∀ (query : String) (links : List FoxSearchCandidate) (limit : Option Nat),
      (fox_search_manga query links limit).Pairwise
        (fun a b => b.relevance_score ≤ a.relevance_score) ∧
      (∀ e ∈ fox_search_manga query links limit, 0 < e.relevance_score) ∧
      (fox_search_manga query links limit).Pairwise
        (fun a b => pyLower b.title = pyLower query → pyLower a.title = pyLower query) ∧
      (∀ s : Nat,
        ((fox_search_manga query links limit).filter
          (fun e => e.relevance_score = s)).Sublist
        ((fox_scored query links).filter (fun e => e.relevance_score = s))) ∧
      (fox_search_manga query links none =
        List.insertionSort scoreGe (fox_scored query links)) ∧
      ((dedupByHref links).map (fun c => c.href)).Nodup := by
  intro query links limit
  have hsub : (fox_search_manga query links limit).Sublist
      (List.insertionSort scoreGe (fox_scored query links)) :=
    applyLimit_sublist limit _
  have hsorted : (List.insertionSort scoreGe (fox_scored query links)).Pairwise scoreGe :=
    List.sorted_insertionSort scoreGe _
  have hmemf : ∀ e ∈ List.insertionSort scoreGe (fox_scored query links),
      0 < e.relevance_score ∧ e.relevance_score ≤ 100 ∧
        (e.relevance_score = 100 ↔ pyLower e.title = pyLower query) := by
    intro e he
    rw [List.mem_insertionSort] at he
    exact fox_scored_mem query links e he
  refine ⟨?_, ?_, ?_, ?_, rfl, ?_⟩
  · exact List.Pairwise.sublist hsub hsorted
  · intro e he
    exact (hmemf e (hsub.subset he)).1
  · have hpw : (List.insertionSort scoreGe (fox_scored query links)).Pairwise
        (fun a b => pyLower b.title = pyLower query → pyLower a.title = pyLower query) := by
      apply List.Pairwise.imp_of_mem ?_ hsorted
      intro a b ha hb hr hbq
      obtain ⟨_, hale, haiff⟩ := hmemf a ha
      obtain ⟨_, _, hbiff⟩ := hmemf b hb
      have hb100 : b.relevance_score = 100 := hbiff.mpr hbq
      have hr' : b.relevance_score ≤ a.relevance_score := hr
      exact haiff.mp (by omega)
    exact List.Pairwise.sublist hsub hpw
  · intro s
    have heq := insertionSort_filter_score s (fox_scored query links)
    exact heq ▸ (hsub.filter (fun e => e.relevance_score = s))
  · exact dedupByHref_hrefs_nodup_bounded links.length links (Nat.le_refl _)

end Nukedown
